import Mathlib

/-
Shallow embedding of the connection-pool load driver in cmd/frieza/main.go
(package main of Dysax/slowserver).

Modelling conventions:
- Go strings are Lean String values; strings.Split with the one-character
  separator used by the program is reimplemented structurally so that the
  kernel can evaluate it.
- The int32 selection counter of the address override is an Int together
  with explicit twos-complement wraparound, because the program indexes a
  slice with int(n) % len and the behaviour after the counter wraps is
  observable (a negative Go remainder panics the indexing expression).
- net.Dial and the websocket primitives are oracles passed in as function
  arguments; a (net.Conn, error) pair is a NetResult since exactly one side
  is nil.
- A runtime panic or os.Exit is a distinguished outcome constructor.
- Stateful methods become functions from the receiver to the updated
  receiver plus their observable effects (event traces).
-/

/-- Go strings.Split restricted to a one-character separator: splits the
character list at every occurrence of sep; the empty input yields one empty
field, and a trailing separator yields a trailing empty field, as in Go. -/
def splitOnChar (sep : Char) : List Char → List (List Char)
  | [] => [[]]
  | c :: rest =>
      let r := splitOnChar sep rest
      if c = sep then [] :: r
      else
        match r with
        | [] => [[c]]
        | g :: gs => (c :: g) :: gs

/-- Go strings.Split(s, sep) for a one-character sep, on Lean strings. -/
def goSplit (s : String) (sep : Char) : List String :=
  (splitOnChar sep s.toList).map (fun g => String.mk g)

/-- Twos-complement wraparound into the int32 range, as performed by Go
int32 arithmetic (atomic.AddInt32 wraps on overflow). -/
def wrap32 (x : Int) : Int := (x + 2 ^ 31) % 2 ^ 32 - 2 ^ 31

/-- Twos-complement wraparound into the signed 64-bit range, as performed
by Go int arithmetic on the 64-bit platforms the driver targets (on a
32-bit platform the int width is 32 and wrapping happens correspondingly
sooner). -/
def wrap64 (x : Int) : Int := (x + 2 ^ 63) % 2 ^ 64 - 2 ^ 63

/-- Go integer remainder a % b: truncated division, the result takes the
sign of the dividend a. -/
def goMod (a b : Int) : Int := if 0 ≤ a then a % b else -((-a) % b)

/-- A live network connection as produced by net.Dial; the model keeps only
the remote address, which is all the driver inspects. -/
structure Conn where
  remoteAddr : String
deriving DecidableEq

/-- A Go (net.Conn, error) pair as returned by net.Dial: exactly one of the
two is non-nil. -/
inductive NetResult where
  | conn (c : Conn)
  | err (e : String)
deriving DecidableEq

/-- Oracle standing for net.Dial: network and address in, connection or
error out. -/
abbrev NetOracle := String → String → NetResult

/-- net.SplitHostPort restricted to the address shapes this program
produces: exactly one colon separating host and port; anything else is an
address error (bracketed IPv6 literals are out of scope for the driver). -/
def splitHostPort (address : String) : Option (String × String) :=
  match goSplit address ':' with
  | [h, p] => some (h, p)
  | _ => none

/-- The aoverride struct (main.go 331-336): override address pool, int32
selection counter n, override host h, and the seen log of already reported
other-host remote addresses. -/
structure aoverride where
  addrs : List String
  n : Int
  h : String
  seen : List String
deriving DecidableEq

/-- Outcome of one aoverride.dial call: a runtime panic / os.Exit, or the
(conn, error) pair returned to the caller. -/
inductive DialOut where
  | panic
  | result (r : NetResult)
deriving DecidableEq

/-- aoverride.dial (main.go 339-369) with net.Dial abstracted as netDial.
A SplitHostPort failure prints to stderr and calls os.Exit(1).
Non-matching host: net.Dial on the unchanged address; the code then reads
c.RemoteAddr() before checking the error, so a failed dial leaves c nil and
the method call panics; on success the remote address is appended to seen
if new (with a one-time diagnostic) and (c, nil) is returned.
Matching host: the pool index is int(as.n) % len(as.addrs) with the Go
truncated remainder — an out-of-range or negative index (possible once the
int32 counter has wrapped) or an empty pool panics — then n is incremented
with int32 wraparound and selected:port is dialed, the (conn, error) pair
returned to the caller after logging any error. -/
def aoverride.dial (as : aoverride) (netDial : NetOracle) (network address : String) :
    DialOut × aoverride :=
  match splitHostPort address with
  | none => (.panic, as)
  | some (host, port) =>
    if host ≠ as.h then
      match netDial network address with
      | .err _ => (.panic, as)
      | .conn c =>
          let raddr := c.remoteAddr
          let as1 := if as.seen.contains raddr then as
                     else { as with seen := as.seen ++ [raddr] }
          (.result (.conn c), as1)
    else
      let idx := goMod as.n (as.addrs.length : Int)
      if hidx : 0 ≤ idx ∧ idx.toNat < as.addrs.length then
        let a := as.addrs.get ⟨idx.toNat, hidx.2⟩ ++ ":" ++ port
        let as1 := { as with n := wrap32 (as.n + 1) }
        (.result (netDial network a), as1)
      else (.panic, as)

/-- The override state after j successive dial calls with a fixed oracle,
network and address, starting from as. -/
def iterateDial (netDial : NetOracle) (network address : String) (as : aoverride) :
    Nat → aoverride
  | 0 => as
  | j + 1 => (aoverride.dial (iterateDial netDial network address as j) netDial network address).2

/-- Outcome of the -resolve handling at the top of Work.Start. -/
inductive ResolveSetup where
  | noOverride
  | panicked
  | withOverride (ao : aoverride)
deriving DecidableEq

/-- Work.Start handling of the -resolve spec (main.go 205-212): the spec is
split on ":" only — commas are not treated as separators — host := r[0] and
addrs := r[2:], with no validation; when the split yields fewer than two
fields the slice expression r[2:] panics (slice bounds out of range). -/
def setupResolve (resolve : String) : ResolveSetup :=
  if resolve = "" then .noOverride
  else
    let r := goSplit resolve ':'
    if r.length < 2 then .panicked
    else .withOverride { h := r.headD "", addrs := r.drop 2, n := 0, seen := [] }

/-- One observable step of the Start launch loop. -/
inductive LaunchEvent where
  | launch (i : Nat)
  | pause
deriving DecidableEq

/-- Events of iteration i of the launch loop (main.go 216-228): launch
worker i, then sleep one second when i > 0 and i % CPS == 0. -/
def launchBlock (cps i : Nat) : List LaunchEvent :=
  .launch i :: (if 0 < i ∧ i % cps = 0 then [.pause] else [])

/-- The event trace of the Start launch loop for c workers at ramp-up rate
cps (main.go 216-228). -/
def startTrace (c cps : Nat) : List LaunchEvent :=
  (List.range c).flatMap (launchBlock cps)

/-- Number of one-second pauses that precede the launch of worker index j
in a trace. -/
def pausesBefore (tr : List LaunchEvent) (j : Nat) : Nat :=
  (tr.takeWhile (fun e => decide (e ≠ .launch j))).countP (fun e => decide (e = .pause))

/-- The worker indices launched by a trace, in order. -/
def launches (tr : List LaunchEvent) : List Nat :=
  tr.filterMap (fun e => match e with | .launch i => some i | .pause => none)

/-- The Work configuration fields (main.go 138-158). The channel and
timestamp fields are per-run state and are modelled separately as explicit
arguments of the methods that touch them. -/
structure Work where
  C : Nat
  CPS : Nat
  Timeout : Nat
  URL : String
  resolve : String
  SendData : String
  verbose : Bool
  vv : Bool
  k : Bool
  header : List (String × String)
deriving DecidableEq

/-- The command-line flag values bound in main (main.go 65-93). -/
structure Flags where
  body : String
  bodyFile : String
  hostHeader : String
  userAgent : String
  conc : Nat
  q : Nat
  t : Nat
  v : Bool
  vv : Bool
  k : Bool
  resolve : String
deriving DecidableEq

/-- Construction of the Work value in main (main.go 98-123): q defaults to
conc when 0, and the struct literal assigns URL, C, CPS, Timeout, resolve,
verbose, vv, header and k. SendData is not among the assigned fields, so it
keeps the Go zero value "" — the -d payload parsed into the body flag is
never transferred into the Work value. -/
def mkWork (url : String) (header : List (String × String)) (fl : Flags) : Work :=
  { C := fl.conc
    CPS := if fl.q = 0 then fl.conc else fl.q
    Timeout := fl.t
    URL := url
    resolve := fl.resolve
    SendData := ""
    verbose := fl.v
    vv := fl.vv
    k := fl.k
    header := header }

/-- Observable steps of a worker before its receive loop. -/
inductive WorkerEvent where
  | publishConn (c : Conn)
  | payloadWrite (data : String)
  | publishCounter
  | enterReceiveLoop
deriving DecidableEq

/-- A worker execution prefix: the events it performed, and whether it
ended in a runtime panic. -/
structure WorkerRun where
  events : List WorkerEvent
  panicked : Bool
deriving DecidableEq

/-- Work.runWorker up to the top of the receive loop (main.go 236-259).
Dial failure: log (plus handshake diagnostics) and return — nothing is
published. Dial success: publish the connection handle; if SendData is
non-empty, obtain a binary-message writer — on a writer error the code only
logs and then still calls io.WriteString on the nil writer, a panic — and
write the payload; then publish a fresh counter and enter the receive
loop. -/
def runWorkerSetup (w : Work) (dialResult : NetResult) (nextWriterErr : Option String) :
    WorkerRun :=
  match dialResult with
  | .err _ => { events := [], panicked := false }
  | .conn ws =>
      if w.SendData ≠ "" then
        match nextWriterErr with
        | some _ => { events := [.publishConn ws], panicked := true }
        | none =>
            { events := [.publishConn ws, .payloadWrite w.SendData,
                         .publishCounter, .enterReceiveLoop]
              panicked := false }
      else
        { events := [.publishConn ws, .publishCounter, .enterReceiveLoop]
          panicked := false }

/-- The counter struct (main.go 320-322). N is a Go int: a twos-complement
machine integer that wraps on overflow (64 bits wide on the platforms the
driver targets). -/
structure counter where
  N : Int
deriving DecidableEq

/-- counter.Write (main.go 324-327): add len(p) to the running total with
Go int (wrapping) addition and return (len(p), nil); len(p) itself is an
int by construction of Go slices and undergoes no arithmetic. -/
def counter.Write (c : counter) (p : List UInt8) : counter × Int × Option String :=
  ({ N := wrap64 (c.N + p.length) }, (p.length : Int), none)

/-- Writing a sequence of chunks to a counter, in order. -/
def writeAll (c : counter) : List (List UInt8) → counter
  | [] => c
  | p :: ps => writeAll (counter.Write c p).1 ps

/-- The total computed by Work.PrintReport (main.go 160-167): fold of the
counter totals drained from the counter queue, with Go int (wrapping)
addition. -/
def printReportTotal (cs : List counter) : Int :=
  cs.foldl (fun t c => wrap64 (t + c.N)) 0

/-- The summary line printed by Work.PrintReport. -/
def printReportLine (cs : List counter) (c : Nat) : String :=
  toString (printReportTotal cs) ++ " bytes read from " ++ toString c ++ " websockets"

/-- The close-frame loop of Work.Stop (main.go 179-187): walk the sockets
still queued at close time; WriteMessage(CloseMessage) on each; on the
first failed send the code logs the error and returns, skipping every
remaining connection. Returns the connections that received a send attempt,
in order, and the logged error if one occurred. -/
def closeLoop (sendClose : Conn → Option String) : List Conn → List Conn × Option String
  | [] => ([], none)
  | s :: rest =>
      match sendClose s with
      | some e => ([s], some e)
      | none =>
          let r := closeLoop sendClose rest
          (s :: r.1, r.2)

/-- Observable effects of one Work.Stop call. -/
structure StopTrace where
  stopSignals : Nat
  socketsClosed : Bool
  countersClosed : Bool
  closeAttempts : List Conn
  loggedSendError : Option String
deriving DecidableEq

/-- Work.Stop (main.go 169-191): send w.C stop notifications into the stop
queue (capacity w.C, so the sends never block), close the sockets queue and
the counters queue, then run the close-frame loop over the sockets still
queued. -/
def Work.Stop (w : Work) (sockets : List Conn) (sendClose : Conn → Option String) :
    StopTrace :=
  let r := closeLoop sendClose sockets
  { stopSignals := w.C
    socketsClosed := true
    countersClosed := true
    closeAttempts := r.1
    loggedSendError := r.2 }

/-- Dial oracle that always connects and reports the dialed address as the
remote address of the returned connection. -/
def okDial : NetOracle := fun _ a => .conn ⟨a⟩

/-- Dial oracle that always fails. -/
def failDial : NetOracle := fun _ _ => .err "connection refused"

/-- wrap64 is the identity on the signed 64-bit range. -/
theorem wrap64_eq_self (x : Int) (h0 : -(2 ^ 63) ≤ x) (h1 : x < 2 ^ 63) : wrap64 x = x := by
  have hp : (2 : Int) ^ 63 + 2 ^ 63 = 2 ^ 64 := by norm_num
  rw [wrap64, Int.emod_eq_of_lt (by linarith) (by linarith)]
  ring

/-- Running total after writing a list of chunks, relative to a
nonnegative initial total: as long as the final total stays below 2^63 no
write wraps, and the total is the exact sum of the chunk lengths. -/
theorem writeAll_N (ps : List (List UInt8)) :
    ∀ c : counter, 0 ≤ c.N →
      c.N + (ps.map (fun p => (p.length : Int))).sum < 2 ^ 63 →
      (writeAll c ps).N = c.N + (ps.map (fun p => (p.length : Int))).sum := by
  induction ps with
  | nil => intro c _ _; simp [writeAll]
  | cons p ps ih =>
      intro c hc hlt
      have hsum0 : 0 ≤ (ps.map (fun p => (p.length : Int))).sum := by
        apply List.sum_nonneg
        intro x hx
        simp only [List.mem_map] at hx
        obtain ⟨q, _, hq⟩ := hx
        exact hq ▸ Int.natCast_nonneg q.length
      have hlen0 : (0 : Int) ≤ (p.length : Int) := Int.natCast_nonneg _
      simp only [List.map_cons, List.sum_cons] at hlt ⊢
      have hw : wrap64 (c.N + (p.length : Int)) = c.N + (p.length : Int) := by
        apply wrap64_eq_self
        · have hpow : (0 : Int) ≤ 2 ^ 63 := by norm_num
          linarith
        · linarith
      simp only [writeAll, counter.Write, hw]
      have hrec := ih { N := c.N + (p.length : Int) } (by
        show (0 : Int) ≤ c.N + (p.length : Int)
        linarith) (by
        show (c.N + (p.length : Int)) + (ps.map (fun p => (p.length : Int))).sum < 2 ^ 63
        linarith)
      rw [hrec]
      show (c.N + (p.length : Int)) + (ps.map (fun p => (p.length : Int))).sum =
        c.N + ((p.length : Int) + (ps.map (fun p => (p.length : Int))).sum)
      ring

/-- C9 (amended): every counter write returns the chunk length and no
error (the counter is never itself a failure source), and the running
total equals the sum of the chunk lengths as long as that sum stays
within the signed 64-bit int range — the Go int total wraps on overflow,
so the equality does not hold for every sequence; in particular after
chunks of sizes [5, 3, 12] the total equals 20. -/
theorem counter_accumulates :
    (∀ (c : counter) (p : List UInt8),
        (counter.Write c p).2.1 = (p.length : Int) ∧
        (counter.Write c p).2.2 = none ∧
        (counter.Write c p).1.N = wrap64 (c.N + p.length)) ∧
    (∀ ps : List (List UInt8),
        (ps.map (fun p => (p.length : Int))).sum < 2 ^ 63 →
        (writeAll { N := 0 } ps).N = (ps.map (fun p => (p.length : Int))).sum) ∧
    (writeAll { N := 0 }
        [List.replicate 5 0, List.replicate 3 0, List.replicate 12 0]).N = 20 := by
  refine ⟨fun c p => ⟨rfl, rfl, rfl⟩, fun ps hlt => ?_, by decide⟩
  have h := writeAll_N ps { N := 0 } le_rfl (by simpa using hlt)
  simpa using h

/-- Witness for counter_accumulates: chunk sizes [5, 3, 12] keep the total
in range and sum to 20. -/
theorem counter_accumulates_witness :
    (([List.replicate 5 (0 : UInt8), List.replicate 3 0, List.replicate 12 0].map
        (fun p => (p.length : Int))).sum < 2 ^ 63) ∧
    (writeAll { N := 0 }
        [List.replicate 5 (0 : UInt8), List.replicate 3 0, List.replicate 12 0]).N =
      (([List.replicate 5 (0 : UInt8), List.replicate 3 0, List.replicate 12 0].map
        (fun p => (p.length : Int))).sum) := by
  refine ⟨by decide, ?_⟩
  exact counter_accumulates.2.1
    [List.replicate 5 0, List.replicate 3 0, List.replicate 12 0] (by decide)

/-- C9 counterexample: two chunks of 2^62 bytes each drive the Go int
total to 2^63, which wraps to -2^63, while the claimed for-every-sequence
equality requires the total 2^63. -/
theorem counter_accumulates_counterexample :
    (writeAll { N := 0 }
        [List.replicate (2 ^ 62) (0 : UInt8), List.replicate (2 ^ 62) 0]).N ≠
      (([List.replicate (2 ^ 62) (0 : UInt8), List.replicate (2 ^ 62) 0].map
        (fun p => (p.length : Int))).sum) := by
  simp only [writeAll, counter.Write, List.length_replicate, List.map_cons, List.map_nil,
    List.sum_cons, List.sum_nil]
  norm_num [wrap64]

/-- C6: a resolve call for a non-matching host leaves the selection index
(and the pool and the override host) unchanged and, when the dial succeeds,
returns the connection obtained by dialing the unchanged address. -/
theorem dial_nonmatching_host (as : aoverride) (netDial : NetOracle)
    (network address host port : String)
    (hsplit : splitHostPort address = some (host, port)) (hne : host ≠ as.h) :
    (aoverride.dial as netDial network address).2.n = as.n ∧
    (aoverride.dial as netDial network address).2.addrs = as.addrs ∧
    (aoverride.dial as netDial network address).2.h = as.h ∧
    (∀ c, netDial network address = .conn c →
      (aoverride.dial as netDial network address).1 = .result (.conn c)) := by
  unfold aoverride.dial
  rw [hsplit]
  simp only [if_pos hne]
  cases hnd : netDial network address with
  | err e => simp
  | conn c =>
      by_cases hm : c.remoteAddr ∈ as.seen <;> simp [hm]

/-- Witness for dial_nonmatching_host at a concrete state and oracle. -/
theorem dial_nonmatching_host_witness :
    (splitHostPort "other.com:80" = some ("other.com", "80") ∧
      "other.com" ≠ ({ addrs := ["10.0.0.1"], n := 5, h := "example.com", seen := [] } : aoverride).h) ∧
    (aoverride.dial { addrs := ["10.0.0.1"], n := 5, h := "example.com", seen := [] }
        okDial "tcp" "other.com:80").2.n = 5 := by
  refine ⟨⟨by decide, by decide⟩, ?_⟩
  exact (dial_nonmatching_host _ okDial "tcp" "other.com:80" "other.com" "80"
    (by decide) (by decide)).1

/-- C10 (code bug evidence): with a failing dial for a non-matching host,
aoverride.dial reads RemoteAddr on the nil connection and panics instead of
returning the dial error to the caller; the state is left unchanged. -/
theorem dial_nonmatching_error_panics :
    aoverride.dial { addrs := ["10.0.0.1"], n := 0, h := "example.com", seen := [] }
      failDial "tcp" "other.com:80" =
    (.panic, { addrs := ["10.0.0.1"], n := 0, h := "example.com", seen := [] }) := by
  decide

/-- C3 (code bug evidence): the -resolve spec is split on colons only, so
comma-separated addresses remain one single pool entry; all four worker
dials for the matching host then go to that merged entry, not 2/2 across
two addresses. -/
theorem resolve_commas_not_split :
    setupResolve "example.com:443:10.0.0.1,10.0.0.2" =
      .withOverride { addrs := ["10.0.0.1,10.0.0.2"], n := 0, h := "example.com", seen := [] } ∧
    (List.range 4).map
        (fun m => (aoverride.dial
            (iterateDial okDial "tcp" "example.com:443"
              { addrs := ["10.0.0.1,10.0.0.2"], n := 0, h := "example.com", seen := [] } m)
            okDial "tcp" "example.com:443").1) =
      List.replicate 4 (.result (.conn ⟨"10.0.0.1,10.0.0.2:443"⟩)) := by
  exact ⟨by decide, by decide⟩

/-- Concrete flag values of a run invoked with -d "hello" and four
connections. -/
def flagsDHello : Flags :=
  { body := "hello", bodyFile := "", hostHeader := "", userAgent := ""
    conc := 4, q := 0, t := 20, v := false, vv := false, k := false, resolve := "" }

/-- C5 (code bug evidence): main never copies the parsed -d payload into
the Work value, so SendData keeps the zero value and no worker ever writes
a payload message, for every flag configuration; concretely, with -d
"hello" a successfully dialed worker publishes its connection and counter
and enters its receive loop without any payload write. -/
theorem payload_never_sent :
    (∀ (url : String) (header : List (String × String)) (fl : Flags)
        (d : NetResult) (nw : Option String) (s : String),
        (mkWork url header fl).SendData = "" ∧
        WorkerEvent.payloadWrite s ∉ (runWorkerSetup (mkWork url header fl) d nw).events) ∧
    runWorkerSetup (mkWork "ws://example.com/ws" [] flagsDHello) (.conn ⟨"10.0.0.9:443"⟩) none =
      { events := [.publishConn ⟨"10.0.0.9:443"⟩, .publishCounter, .enterReceiveLoop]
        panicked := false } := by
  refine ⟨fun url header fl d nw s => ⟨rfl, ?_⟩, by decide⟩
  cases d with
  | err e => simp [runWorkerSetup]
  | conn ws => simp [runWorkerSetup, mkWork]

/-- C8 (code bug evidence): an unparsable -resolve spec is never validated
at startup: a spec with fewer than two colon-separated fields panics inside
Start with a slice-bounds error, and a host:port spec with no addresses is
accepted with an empty pool whose first matching-host dial panics — in no
case is usage printed with exit status 1. -/
theorem resolve_no_validation :
    setupResolve "example.com" = .panicked ∧
    setupResolve "example.com:443" =
      .withOverride { addrs := [], n := 0, h := "example.com", seen := [] } ∧
    (aoverride.dial { addrs := [], n := 0, h := "example.com", seen := [] }
        okDial "tcp" "example.com:443").1 = .panic := by
  exact ⟨by decide, by decide, by decide⟩

/-- C7: a worker whose dial fails publishes neither a connection handle nor
a counter and returns normally; an empty counter queue yields a zero total,
and with C = 4 the printed report line reads zero bytes. -/
theorem dial_failure_contributes_nothing :
    (∀ (w : Work) (e : String) (nw : Option String),
        (runWorkerSetup w (.err e) nw).events = [] ∧
        (runWorkerSetup w (.err e) nw).panicked = false) ∧
    printReportTotal [] = 0 ∧
    printReportLine [] 4 = "0 bytes read from 4 websockets" := by
  exact ⟨fun w e nw => ⟨rfl, rfl⟩, rfl, by decide⟩

/-- When every close-frame send succeeds, the close loop reaches every
queued connection and logs nothing. -/
theorem closeLoop_all_ok (sendClose : Conn → Option String) :
    ∀ l : List Conn, (∀ s ∈ l, sendClose s = none) → closeLoop sendClose l = (l, none) := by
  intro l
  induction l with
  | nil => intro _; rfl
  | cons s rest ih =>
      intro hall
      have hs : sendClose s = none := hall s (by simp)
      have hr := ih (fun t ht => hall t (by simp [ht]))
      simp [closeLoop, hs, hr]

/-- The close loop stops at the first failed send: the connections after
it receive no attempt and the error is logged. -/
theorem closeLoop_first_err (sendClose : Conn → Option String) :
    ∀ (l1 : List Conn) (s : Conn) (l2 : List Conn) (e : String),
      (∀ t ∈ l1, sendClose t = none) → sendClose s = some e →
      closeLoop sendClose (l1 ++ s :: l2) = (l1 ++ [s], some e) := by
  intro l1
  induction l1 with
  | nil => intro s l2 e _ hs; simp [closeLoop, hs]
  | cons t rest ih =>
      intro s l2 e hall hs
      have ht : sendClose t = none := hall t (by simp)
      have hr := ih s l2 e (fun u hu => hall u (by simp [hu])) hs
      simp [closeLoop, ht, hr]

/-- C4 (amended): Stop sends exactly C stop notifications and closes the
live-connection queue and the counter queue; it then sends normal-closure
frames to the queued connections in order only until the first send
failure: when every send succeeds each queued connection receives a frame
and nothing is logged, and when a send fails the error is logged, not
retried, and every connection after the failing one receives no send
attempt at all. -/
theorem stop_notifications_and_close (w : Work) (sockets : List Conn)
    (sendClose : Conn → Option String) :
    (Work.Stop w sockets sendClose).stopSignals = w.C ∧
    (Work.Stop w sockets sendClose).socketsClosed = true ∧
    (Work.Stop w sockets sendClose).countersClosed = true ∧
    ((∀ s ∈ sockets, sendClose s = none) →
      (Work.Stop w sockets sendClose).closeAttempts = sockets ∧
      (Work.Stop w sockets sendClose).loggedSendError = none) ∧
    (∀ (l1 : List Conn) (s : Conn) (l2 : List Conn) (e : String),
      sockets = l1 ++ s :: l2 → (∀ t ∈ l1, sendClose t = none) → sendClose s = some e →
      (Work.Stop w sockets sendClose).closeAttempts = l1 ++ [s] ∧
      (Work.Stop w sockets sendClose).loggedSendError = some e) := by
  refine ⟨rfl, rfl, rfl, fun hall => ?_, fun l1 s l2 e hsk hall hs => ?_⟩
  · have h := closeLoop_all_ok sendClose sockets hall
    simp [Work.Stop, h]
  · subst hsk
    have h := closeLoop_first_err sendClose l1 s l2 e hall hs
    simp [Work.Stop, h]

/-- Concrete Work configuration used for closed-instance checks. -/
def workTwo : Work :=
  { C := 2, CPS := 2, Timeout := 20, URL := "ws://example.com/ws", resolve := ""
    SendData := "", verbose := false, vv := false, k := false, header := [] }

/-- Send oracle that fails exactly on the connection whose remote address
is "c1". -/
def failOnC1 : Conn → Option String :=
  fun c => if c.remoteAddr = "c1" then some "broken pipe" else none

/-- Send oracle whose close-frame sends always succeed. -/
def sendOk : Conn → Option String := fun _ => none

/-- Witness for stop_notifications_and_close: two queued connections with
every close-frame send succeeding. -/
theorem stop_notifications_and_close_witness :
    (Work.Stop workTwo [Conn.mk "a", Conn.mk "b"] sendOk).stopSignals = workTwo.C ∧
    (Work.Stop workTwo [Conn.mk "a", Conn.mk "b"] sendOk).closeAttempts =
      [Conn.mk "a", Conn.mk "b"] := by
  refine ⟨?_, ?_⟩
  · exact (stop_notifications_and_close workTwo [Conn.mk "a", Conn.mk "b"] sendOk).1
  · exact ((stop_notifications_and_close workTwo [Conn.mk "a", Conn.mk "b"]
      sendOk).2.2.2.1 (by simp [sendOk])).1

/-- C4 counterexample: with connections c1 and c2 queued and the close
frame to c1 failing, Stop logs the error and returns at once, so c2 —
still present in the queue at close time — never receives a close-frame
send attempt. -/
theorem stop_skips_after_failure :
    Conn.mk "c2" ∈ [Conn.mk "c1", Conn.mk "c2"] ∧
    (Work.Stop workTwo [Conn.mk "c1", Conn.mk "c2"] failOnC1).loggedSendError =
      some "broken pipe" ∧
    Conn.mk "c2" ∉ (Work.Stop workTwo [Conn.mk "c1", Conn.mk "c2"] failOnC1).closeAttempts := by
  exact ⟨by decide, by decide, by decide⟩

/-- takeWhile over an append whose first part wholly satisfies the
predicate. -/
theorem takeWhile_append_all {α : Type} (p : α → Bool) :
    ∀ l1 l2 : List α, (∀ a ∈ l1, p a = true) →
      (l1 ++ l2).takeWhile p = l1 ++ l2.takeWhile p := by
  intro l1
  induction l1 with
  | nil => intro l2 _; rfl
  | cons a t ih =>
      intro l2 hall
      have ha : p a = true := hall a (by simp)
      simp only [List.cons_append, List.takeWhile_cons, ha]
      simp [ih l2 (fun b hb => hall b (by simp [hb]))]

/-- Every event in the launch trace of the first j workers is a pause or a
launch of an index below j. -/
theorem startTrace_events (cps j : Nat) :
    ∀ e ∈ startTrace j cps, e = .pause ∨ ∃ i, i < j ∧ e = .launch i := by
  intro e he
  rw [startTrace, List.mem_flatMap] at he
  obtain ⟨i, hi, hei⟩ := he
  rw [List.mem_range] at hi
  rw [launchBlock] at hei
  rcases List.mem_cons.mp hei with h | h
  · exact Or.inr ⟨i, hi, h⟩
  · left
    by_cases hc : 0 < i ∧ i % cps = 0
    · rw [if_pos hc] at h; simpa using h
    · rw [if_neg hc] at h; simp at h

/-- Decomposition of a launch trace at any worker index j below the
connection count. -/
theorem startTrace_split (cps : Nat) :
    ∀ c j : Nat, j < c →
      ∃ rest, startTrace c cps = startTrace j cps ++ (launchBlock cps j ++ rest) := by
  intro c
  induction c with
  | zero => intro j hj; exact absurd hj (Nat.not_lt_zero j)
  | succ c ih =>
      intro j hj
      rcases Nat.lt_succ_iff_lt_or_eq.mp hj with h | h
      · obtain ⟨rest, hr⟩ := ih j h
        refine ⟨rest ++ launchBlock cps c, ?_⟩
        rw [startTrace, List.range_succ, List.flatMap_append, ← startTrace, hr]
        simp [List.append_assoc]
      · subst h
        refine ⟨[], ?_⟩
        rw [startTrace, List.range_succ, List.flatMap_append, ← startTrace]
        simp

/-- Pause count of the launch trace of the first j workers: the loop has
slept once per launched worker whose positive index is a multiple of the
rate, which is (j - 1) / cps times. -/
theorem startTrace_pause_count (cps : Nat) (hcps : 1 ≤ cps) :
    ∀ j : Nat, (startTrace j cps).countP (fun e => decide (e = .pause)) = (j - 1) / cps := by
  intro j
  induction j with
  | zero => simp [startTrace]
  | succ j ih =>
      rw [startTrace, List.range_succ, List.flatMap_append, ← startTrace, List.countP_append, ih]
      have hblock : ([j].flatMap (launchBlock cps)).countP (fun e => decide (e = LaunchEvent.pause)) =
          if 0 < j ∧ j % cps = 0 then 1 else 0 := by
        by_cases hc : 0 < j ∧ j % cps = 0 <;> simp [launchBlock, hc]
      rw [hblock]
      rcases Nat.eq_zero_or_pos j with h0 | hpos
      · subst h0; simp
      · have hj1 : j - 1 + 1 = j := Nat.succ_pred_eq_of_pos hpos
        have hs := Nat.succ_div (j - 1) cps
        rw [hj1] at hs
        rw [Nat.succ_sub_one, hs]
        congr 1
        by_cases hd : cps ∣ j
        · rw [if_pos hd, if_pos ⟨hpos, Nat.dvd_iff_mod_eq_zero.mp hd⟩]
        · rw [if_neg hd, if_neg (fun hcon => hd (Nat.dvd_iff_mod_eq_zero.mpr hcon.2))]

/-- Pauses preceding the launch of worker j in the full trace equal the
pause count of the trace of the first j workers. -/
theorem pausesBefore_startTrace (c cps j : Nat) (hcps : 1 ≤ cps) (hj : j < c) :
    pausesBefore (startTrace c cps) j = (j - 1) / cps := by
  obtain ⟨rest, hr⟩ := startTrace_split cps c j hj
  rw [pausesBefore, hr]
  have hall : ∀ e ∈ startTrace j cps,
      (fun e => decide (e ≠ LaunchEvent.launch j)) e = true := by
    intro e he
    rcases startTrace_events cps j e he with h | ⟨i, hi, h⟩
    · subst h; simp
    · subst h; simp; omega
  rw [takeWhile_append_all _ _ _ hall]
  have hstop : (launchBlock cps j ++ rest).takeWhile
      (fun e => decide (e ≠ LaunchEvent.launch j)) = [] := by
    rw [launchBlock]
    simp [List.takeWhile_cons]
  rw [hstop, List.countP_append]
  simp [startTrace_pause_count cps hcps j]

/-- The launch loop launches exactly the indices 0..c-1 in ascending
order. -/
theorem launches_startTrace (cps : Nat) :
    ∀ c : Nat, launches (startTrace c cps) = List.range c := by
  intro c
  induction c with
  | zero => rfl
  | succ c ih =>
      rw [startTrace, List.range_succ, List.flatMap_append, ← startTrace]
      rw [launches, List.filterMap_append]
      have h2 : ([c].flatMap (launchBlock cps)).filterMap
          (fun e => match e with | .launch i => some i | .pause => none) = [c] := by
        by_cases hc : 0 < c ∧ c % cps = 0 <;> simp [launchBlock, hc]
      rw [h2, ← launches, ih]

/-- C2 (amended): for every connection count C ≥ 1 and ramp-up rate ≥ 1,
Start launches exactly C workers in ascending index order, and the Nth
worker launch (1-based) is preceded by exactly (N - 2) / rate one-time-unit
pauses of the launching task (truncated subtraction: no pause before the
first two launches), not (N - 1) / rate: the loop sleeps after launching
worker i exactly when i > 0 and i mod rate = 0, so the first batch holds
rate + 1 workers. -/
theorem start_rampup (c cps n : Nat) (hcps : 1 ≤ cps) (hn : 1 ≤ n) (hnc : n ≤ c) :
    launches (startTrace c cps) = List.range c ∧
    pausesBefore (startTrace c cps) (n - 1) = (n - 2) / cps := by
  refine ⟨launches_startTrace cps c, ?_⟩
  have hj : n - 1 < c := by omega
  have h12 : n - 1 - 1 = n - 2 := by omega
  rw [pausesBefore_startTrace c cps (n - 1) hcps hj, h12]

/-- Witness for start_rampup: three workers at rate two; no pause has yet
occurred when the third worker is launched. -/
theorem start_rampup_witness :
    (1 ≤ 2 ∧ 1 ≤ 3 ∧ 3 ≤ 3) ∧
    (launches (startTrace 3 2) = List.range 3 ∧
      pausesBefore (startTrace 3 2) (3 - 1) = (3 - 2) / 2) := by
  exact ⟨⟨by decide, by decide, by decide⟩, start_rampup 3 2 3 (by decide) (by decide) (by decide)⟩

/-- C2 counterexample: with C = 2 and rate 1 the second worker launch is
preceded by zero pauses, while the claimed formula floor((N-1)/rate)
requires one; the sleep guard i > 0 skips the pause the claim places before
the second launch. -/
theorem start_rampup_counterexample :
    ¬ pausesBefore (startTrace 2 1) (2 - 1) = (2 - 1) / 1 := by decide

/-- wrap32 is the identity on the int32 range. -/
theorem wrap32_eq_self (x : Int) (h0 : -(2 ^ 31) ≤ x) (h1 : x < 2 ^ 31) : wrap32 x = x := by
  have hp : (2 : Int) ^ 31 + 2 ^ 31 = 2 ^ 32 := by norm_num
  rw [wrap32, Int.emod_eq_of_lt (by linarith) (by linarith)]
  ring

/-- getD at an index inside the list is the corresponding get. -/
theorem getD_eq_get {α : Type} (l : List α) (d : α) (i : Nat) (h : i < l.length) :
    l.getD i d = l.get ⟨i, h⟩ := by
  simp [List.getD_eq_getElem?_getD, List.getElem?_eq_getElem h, List.get_eq_getElem]

/-- One dial call on a matching-host address with a nonnegative selection
counter: the pool entry at index n mod K is selected and dialed with the
port appended, the oracle result is returned, and the counter advances by
one with int32 wraparound; nothing else in the state changes. -/
theorem dial_matching_step (as : aoverride) (netDial : NetOracle)
    (network address port : String)
    (hsplit : splitHostPort address = some (as.h, port))
    (hK : 0 < as.addrs.length) (hn : 0 ≤ as.n) :
    aoverride.dial as netDial network address =
      (.result (netDial network
          (as.addrs.getD (as.n.toNat % as.addrs.length) "" ++ ":" ++ port)),
        { as with n := wrap32 (as.n + 1) }) := by
  have hmod : as.n.toNat % as.addrs.length < as.addrs.length := Nat.mod_lt _ hK
  have hidx : goMod as.n (as.addrs.length : Int) =
      ((as.n.toNat % as.addrs.length : Nat) : Int) := by
    rw [goMod, if_pos hn]
    conv_lhs => rw [← Int.toNat_of_nonneg hn]
    rw [← Int.natCast_mod]
  simp only [aoverride.dial, hsplit]
  rw [if_neg (fun hc => hc rfl)]
  simp only [hidx, Int.toNat_natCast]
  rw [dif_pos ⟨Int.natCast_nonneg _, hmod⟩]
  rw [getD_eq_get as.addrs "" _ hmod]

/-- The override state after j ≤ 2^31 successive matching-host dial calls:
the selection counter holds wrap32 j and nothing else has changed. -/
theorem iterateDial_matching (netDial : NetOracle) (network address port : String)
    (addrs : List String) (hst : String) (seen0 : List String)
    (hsplit : splitHostPort address = some (hst, port)) (hK : 0 < addrs.length) :
    ∀ j : Nat, j ≤ 2 ^ 31 →
      iterateDial netDial network address
          { addrs := addrs, n := 0, h := hst, seen := seen0 } j =
        { addrs := addrs, n := wrap32 j, h := hst, seen := seen0 } := by
  intro j
  induction j with
  | zero =>
      intro _
      rw [iterateDial]
      norm_num [wrap32]
  | succ j ih =>
      intro hj
      have hjlt : (j : Int) < 2 ^ 31 := by
        have : (j : Nat) < 2 ^ 31 := by omega
        exact_mod_cast this
      have hw : wrap32 (j : Int) = (j : Int) :=
        wrap32_eq_self _ (le_trans (by norm_num) (Int.natCast_nonneg j)) hjlt
      rw [iterateDial, ih (by omega), hw]
      rw [dial_matching_step _ netDial network address port hsplit hK (Int.natCast_nonneg j)]
      simp [Nat.cast_succ]

set_option maxRecDepth 4000 in
/-- C1 (amended): for every override pool of size K ≥ 1 and every m with
1 ≤ m ≤ 2^31, the m-th successive matching-host resolve call selects pool
entry (m - 1) mod K, dials selected:port and returns the (conn, error)
pair of that dial to the caller; the selection index is m - 1 before the
call and becomes wrap32 m afterwards — that is, it advances by exactly one
to m for m < 2^31, while at m = 2^31 the int32 counter wraps to -2^31
instead, after which the round-robin contract breaks. -/
theorem dial_round_robin (addrs : List String) (hst port address network : String)
    (netDial : NetOracle) (m : Nat)
    (hK : 0 < addrs.length) (hm1 : 1 ≤ m) (hm2 : m ≤ 2 ^ 31)
    (hsplit : splitHostPort address = some (hst, port)) :
    (iterateDial netDial network address
        { addrs := addrs, n := 0, h := hst, seen := [] } (m - 1)).n = (m : Int) - 1 ∧
    (aoverride.dial (iterateDial netDial network address
        { addrs := addrs, n := 0, h := hst, seen := [] } (m - 1)) netDial network address).1 =
      .result (netDial network (addrs.getD ((m - 1) % addrs.length) "" ++ ":" ++ port)) ∧
    (aoverride.dial (iterateDial netDial network address
        { addrs := addrs, n := 0, h := hst, seen := [] } (m - 1)) netDial network address).2.n =
      wrap32 (m : Int) := by
  have hiter := iterateDial_matching netDial network address port addrs hst []
    hsplit hK (m - 1) (by omega)
  have hlt : ((m - 1 : Nat) : Int) < 2 ^ 31 := by
    have : (m - 1 : Nat) < 2 ^ 31 := by omega
    exact_mod_cast this
  have hw : wrap32 ((m - 1 : Nat) : Int) = ((m - 1 : Nat) : Int) :=
    wrap32_eq_self _ (le_trans (by norm_num) (Int.natCast_nonneg (m - 1))) hlt
  have hcast : ((m - 1 : Nat) : Int) = (m : Int) - 1 := by
    push_cast [hm1]
    ring
  rw [hiter, hw]
  have hstep := dial_matching_step { addrs := addrs, n := ((m - 1 : Nat) : Int), h := hst, seen := [] }
    netDial network address port hsplit hK (Int.natCast_nonneg _)
  refine ⟨hcast, ?_, ?_⟩
  · rw [hstep]
    show DialOut.result (netDial network
        (addrs.getD (((m - 1 : Nat) : Int).toNat % addrs.length) "" ++ ":" ++ port)) = _
    rw [Int.toNat_natCast]
  · rw [hstep]
    have harg : ((m - 1 : Nat) : Int) + 1 = (m : Int) := by omega
    show wrap32 (((m - 1 : Nat) : Int) + 1) = wrap32 (m : Int)
    rw [harg]

/-- Witness for dial_round_robin: the second matching call on a pool of two
addresses selects the second address. -/
theorem dial_round_robin_witness :
    (0 < (["10.0.0.1", "10.0.0.2"] : List String).length ∧
      splitHostPort "example.com:443" = some ("example.com", "443")) ∧
    (aoverride.dial (iterateDial okDial "tcp" "example.com:443"
        { addrs := ["10.0.0.1", "10.0.0.2"], n := 0, h := "example.com", seen := [] } (2 - 1))
        okDial "tcp" "example.com:443").1 =
      DialOut.result (.conn ⟨"10.0.0.2:443"⟩) := by
  refine ⟨⟨by decide, by decide⟩, ?_⟩
  have h := (dial_round_robin ["10.0.0.1", "10.0.0.2"] "example.com" "443" "example.com:443"
    "tcp" okDial 2 (by decide) (by decide) (by norm_num) (by decide)).2.1
  exact h.trans (by decide)

/-- C1 counterexample: after 2^31 matching-host calls the int32 selection
counter has wrapped to -2^31; on the next call — the (2^31 + 1)-th — the Go
remainder of the negative counter by the pool size 3 is -2 and the indexing
expression panics, instead of selecting pool entry 2^31 mod 3 = 2 as the
claimed round-robin formula requires. -/
theorem dial_round_robin_counterexample :
    (iterateDial okDial "tcp" "h:80"
        { addrs := ["a", "b", "c"], n := 0, h := "h", seen := [] } (2 ^ 31)).n = -(2 ^ 31) ∧
    (aoverride.dial (iterateDial okDial "tcp" "h:80"
        { addrs := ["a", "b", "c"], n := 0, h := "h", seen := [] } (2 ^ 31))
        okDial "tcp" "h:80").1 = .panic := by
  have hiter := iterateDial_matching okDial "tcp" "h:80" "80" ["a", "b", "c"] "h" []
    (by decide) (by decide) (2 ^ 31) le_rfl
  have hw : wrap32 ((2 ^ 31 : Nat) : Int) = -(2 ^ 31) := by
    norm_num [wrap32]
  rw [hiter, hw]
  exact ⟨rfl, by decide⟩
